import Mathlib

/-!
Verification of the OSINT extraction / fetch / aggregation pipeline.

This file gives a shallow embedding of the Python modules
`core/extractors.py`, `core/utils.py` and `main.py` and proves the frozen
claims about them.

Modelling conventions:
* Python strings are Lean `String` / `List Char`.
* The regex-based extractors are embedded with a small backtracking matcher
  that reproduces Python `re` semantics (leftmost match, ordered alternation,
  greedy bounded/unbounded repetition with backtracking, non-overlapping
  `findall` scanning).
* `extract_emails`, `extract_phones`, `extract_usernames` and
  `extract_possible_names` first run the input through
  `BeautifulSoup(text, "html.parser").get_text(" ", strip=True)`, a call into
  the external bs4 library.  That call is the identity on tag-free plain text
  with no surrounding whitespace, which covers every input appearing in the
  claims; the extractors are therefore modelled on the plain text directly.
* Python's `\s` and `\w` are modelled on the character repertoire the
  patterns can actually touch (ASCII plus the accented letters named in the
  name pattern); the exotic Unicode members of those classes are not used by
  any claim.
* Wall-clock time and `random.uniform` jitter are passed as explicit
  rational-number parameters; `time.sleep` is modelled as exact, so a `wait`
  call's completion time is the entry time plus the computed sleep.
-/

namespace Osint

/-! ### Character classes used by the regexes in `core/extractors.py` -/

/-- Python regex `\d` (the patterns only ever meet ASCII digits). -/
def isDigitCh (c : Char) : Bool := c.isDigit

/-- Python regex `\s`, restricted to its ASCII members. -/
def isPySpace (c : Char) : Bool :=
  c = ' ' || c = '\t' || c = '\n' || c = '\r' || c = '\x0b' || c = '\x0c'

/-- The phone separator class `[\s\-\.]`. -/
def isPhoneSep (c : Char) : Bool := isPySpace c || c = '-' || c = '.'

/-- The email local-part class `[a-zA-Z0-9._%+\-]`. -/
def isLocalCh (c : Char) : Bool :=
  c.isAlpha || c.isDigit || c = '.' || c = '_' || c = '%' || c = '+' || c = '-'

/-- The email domain class `[a-zA-Z0-9.\-]`. -/
def isDomainCh (c : Char) : Bool := c.isAlpha || c.isDigit || c = '.' || c = '-'

/-- The TLD class `[a-zA-Z]`. -/
def isAsciiLetter (c : Char) : Bool := c.isAlpha

/-- The link body class `[^\s\"'<>]`. -/
def isLinkCh (c : Char) : Bool :=
  !(isPySpace c || c = '"' || c = Char.ofNat 39 || c = '<' || c = '>')

/-- The username handle class `[a-zA-Z0-9._\-]`. -/
def isUserCh (c : Char) : Bool :=
  c.isAlpha || c.isDigit || c = '.' || c = '_' || c = '-'

/-- The name-initial class `[A-ZÁÉÍÓÚÑ]`. -/
def isUpperName (c : Char) : Bool :=
  ('A' ≤ c && c ≤ 'Z') || c = 'Á' || c = 'É' || c = 'Í' || c = 'Ó' || c = 'Ú' || c = 'Ñ'

/-- The name-body class `[a-záéíóúñ]`. -/
def isLowerName (c : Char) : Bool :=
  ('a' ≤ c && c ≤ 'z') || c = 'á' || c = 'é' || c = 'í' || c = 'ó' || c = 'ú' || c = 'ñ'

/-- Python regex `\w` (for the `\b` boundary), restricted to the characters
the extractors' patterns can produce next to a boundary. -/
def isWordCh (c : Char) : Bool :=
  c.isAlpha || c.isDigit || c = '_' || isUpperName c || isLowerName c

/-- Length of the leading run of `cls` characters. -/
def runLen (cls : Char → Bool) : List Char → Nat
  | [] => 0
  | a :: t => if cls a then runLen cls t + 1 else 0

/-- Case-insensitive match of a (lowercase) literal pattern against a prefix
of the input, as Python does under `re.IGNORECASE`. -/
def matchesCI : List Char → List Char → Bool
  | [], _ => true
  | _ :: _, [] => false
  | p :: pt, a :: st => (a.toLower = p) && matchesCI pt st

/-! ### A CPS backtracking matcher reproducing Python `re` semantics

A `Pat` receives the remaining input and a continuation; it tries its own
alternatives in the engine's preference order and returns the total number of
characters consumed by itself plus the continuation, for the first alternative
under which the continuation succeeds.  This is exactly the backtracking order
of Python's engine (greedy repetitions try longest first, `?` tries the
present branch first, alternation is left to right). -/

def Pat : Type := List Char → (List Char → Option Nat) → Option Nat

/-- Sequencing of two pattern pieces. -/
def pseq (p q : Pat) : Pat := fun s k => p s (fun s1 => q s1 k)

/-- Ordered alternation (left branch preferred). -/
def palt (p q : Pat) : Pat := fun s k =>
  match p s k with
  | some n => some n
  | none => q s k

/-- Greedy `?`: try the piece first, then the empty branch. -/
def popt (p : Pat) : Pat := fun s k =>
  match p s k with
  | some n => some n
  | none => k s

/-- A single literal character. -/
def pchar (c : Char) : Pat := fun s k =>
  match s with
  | [] => none
  | a :: t => if a = c then (k t).map (· + 1) else none

/-- A single literal character, case-insensitive (pattern char lowercase). -/
def pcharCI (c : Char) : Pat := fun s k =>
  match s with
  | [] => none
  | a :: t => if a.toLower = c then (k t).map (· + 1) else none

/-- A single character of a class. -/
def pcls (cls : Char → Bool) : Pat := fun s k =>
  match s with
  | [] => none
  | a :: t => if cls a then (k t).map (· + 1) else none

/-- A literal string, case-insensitive (pattern given lowercase). -/
def pstrCI (pat : List Char) : Pat := fun s k =>
  if matchesCI pat s then (k (s.drop pat.length)).map (· + pat.length) else none

/-- The descending list `[m, m-1, ..., lo]` (empty when `m < lo`):
the candidate consumption counts of a greedy repetition. -/
def descRange (m lo : Nat) : List Nat :=
  (List.range (m + 1 - lo)).map (fun i => m - i)

/-- Try candidate counts in order; first one whose continuation succeeds wins. -/
def tryCounts (s : List Char) (k : List Char → Option Nat) : List Nat → Option Nat
  | [] => none
  | n :: rest =>
    match k (s.drop n) with
    | some c => some (n + c)
    | none => tryCounts s k rest

/-- Greedy bounded repetition `[cls]{lo,hi}`. -/
def prep (cls : Char → Bool) (lo hi : Nat) : Pat := fun s k =>
  tryCounts s k (descRange (min hi (runLen cls s)) lo)

/-- Greedy unbounded repetition `[cls]{lo,}` (`+` is `lo = 1`). -/
def pmin (cls : Char → Bool) (lo : Nat) : Pat := fun s k =>
  tryCounts s k (descRange (runLen cls s) lo)

/-- Run a pattern at the head of the input; the match need not span the whole
input, so the final continuation accepts everything. -/
def patMatch (p : Pat) (s : List Char) : Option Nat := p s (fun _ => some 0)

/-! ### The non-overlapping `findall` scan -/

/-- A matcher attempts a match at the head of the input and yields the item
`findall` would record there (the whole match, or the single group's capture)
together with the number of characters consumed. -/
def Matcher : Type := List Char → Option (List Char × Nat)

/-- The `re.findall` scan: try the matcher at each position left to right;
on a match, record its item and resume after it.  All the matchers below
consume at least one character on success, so fuel `length + 1` is exact. -/
def pyScan (m : Matcher) : Nat → List Char → List (List Char)
  | 0, _ => []
  | fuel + 1, s =>
    match m s with
    | some (t, n) => t :: pyScan m fuel (s.drop n)
    | none =>
      match s with
      | [] => []
      | _ :: rest => pyScan m fuel rest

/-- All items `re.findall` returns on `s`. -/
def pyFindall (m : Matcher) (s : List Char) : List (List Char) :=
  pyScan m (s.length + 1) s

/-! ### First-seen-order deduplication (`list(dict.fromkeys(...))`) -/

/-- Helper for `pyDedup`, carrying the set of already-emitted elements. -/
def pyDedupAux {α : Type} [DecidableEq α] (seen : List α) : List α → List α
  | [] => []
  | a :: t => if a ∈ seen then pyDedupAux seen t else a :: pyDedupAux (a :: seen) t

/-- `list(dict.fromkeys(l))`: drop duplicates, keeping first occurrences in order. -/
def pyDedup {α : Type} [DecidableEq α] (l : List α) : List α := pyDedupAux [] l

/-! ### The five extractors of `core/extractors.py` -/

/-- The phone pattern
`(?:\+?\d{1,3}[\s\-\.]?)?(?:\(?\d{2,4}\)?[\s\-\.]?)?\d{3,4}[\s\-\.]?\d{3,4}`. -/
def phonePat : Pat :=
  pseq (popt (pseq (popt (pchar '+')) (pseq (prep isDigitCh 1 3) (popt (pcls isPhoneSep)))))
    (pseq
      (popt (pseq (popt (pchar '('))
        (pseq (prep isDigitCh 2 4) (pseq (popt (pchar ')')) (popt (pcls isPhoneSep))))))
      (pseq (prep isDigitCh 3 4) (pseq (popt (pcls isPhoneSep)) (prep isDigitCh 3 4))))

/-- Matcher for the phone pattern (no groups: `findall` records whole matches). -/
def matchPhone : Matcher := fun s =>
  match patMatch phonePat s with
  | some n => some (s.take n, n)
  | none => none

/-- The email pattern `[a-zA-Z0-9._%+\-]+@[a-zA-Z0-9.\-]+\.[a-zA-Z]{2,}`
(`re.IGNORECASE` is immaterial: every letter class already has both cases). -/
def emailPat : Pat :=
  pseq (pmin isLocalCh 1)
    (pseq (pchar '@')
      (pseq (pmin isDomainCh 1)
        (pseq (pchar '.') (pmin isAsciiLetter 2))))

/-- Matcher for the email pattern. -/
def matchEmail : Matcher := fun s =>
  match patMatch emailPat s with
  | some n => some (s.take n, n)
  | none => none

/-- The link pattern `(https?://[^\s\"'<>]+)` under `re.IGNORECASE`
(the single group spans the whole match). -/
def linkPat : Pat :=
  pseq (pstrCI "http".data)
    (pseq (popt (pcharCI 's'))
      (pseq (pstrCI "://".data) (pmin isLinkCh 1)))

/-- Matcher for the link pattern. -/
def matchLink : Matcher := fun s =>
  match patMatch linkPat s with
  | some n => some (s.take n, n)
  | none => none

/-- The `u/handle` alternative of the username pattern (also reached when the
`user/` alternative's handle is too short, exactly as the engine backtracks). -/
def matchUserU : Matcher := fun s =>
  if matchesCI "u/".data s then
    let r := runLen isUserCh (s.drop 2)
    if 3 ≤ r then some ((s.drop 2).take (min 32 r), 2 + min 32 r) else none
  else none

/-- Matcher for the username pattern `(?:@|user/|u/)([a-zA-Z0-9._\-]{3,32})`
under `re.IGNORECASE`; `findall` records the group's capture.  The handle
repetition is greedy with nothing after it, so it captures
`min 32 (runLen isUserCh ...)` characters and fails below 3.  When the `@`
alternative's prefix matches, the later alternatives cannot (they need `u`),
so a short handle after `@` fails the whole position. -/
def matchUser : Matcher := fun s =>
  match s with
  | [] => none
  | c :: rest =>
    if c = '@' then
      let r := runLen isUserCh rest
      if 3 ≤ r then some (rest.take (min 32 r), 1 + min 32 r) else none
    else if matchesCI "user/".data s then
      let r := runLen isUserCh (s.drop 5)
      if 3 ≤ r then some ((s.drop 5).take (min 32 r), 5 + min 32 r) else matchUserU s
    else matchUserU s

/-- One capitalized word `[A-ZÁÉÍÓÚÑ][a-záéíóúñ]+` at the head of the input:
returns the number of characters consumed.  The body run is greedy; nothing
that follows it in the name pattern can match a lowercase letter, so the
maximal run is the only viable choice. -/
def matchNameWord (s : List Char) : Option Nat :=
  match s with
  | [] => none
  | c :: rest =>
    if isUpperName c then
      let r := runLen isLowerName rest
      if 1 ≤ r then some (1 + r) else none
    else none

/-- Characters consumed by the greedy `(?:\s[A-ZÁÉÍÓÚÑ][a-záéíóúñ]+)+` tail:
as many `\s`-plus-word repetitions as will match (0 if none does). -/
def nameTail : Nat → List Char → Nat
  | 0, _ => 0
  | fuel + 1, s =>
    match s with
    | [] => 0
    | c :: rest =>
      if isPySpace c then
        match matchNameWord rest with
        | some n => 1 + n + nameTail fuel (rest.drop n)
        | none => 0
      else 0

/-- The name pattern `\b[A-ZÁÉÍÓÚÑ][a-záéíóúñ]+(?:\s[A-ZÁÉÍÓÚÑ][a-záéíóúñ]+)+`
without its `\b` (checked by the scanner): needs a first word and at least one
`\s`-word repetition. -/
def matchName (s : List Char) : Option Nat :=
  match matchNameWord s with
  | none => none
  | some n =>
    let t := nameTail s.length (s.drop n)
    if t = 0 then none else some (n + t)

/-- The `findall` scan for the name pattern, threading the previous character
so the `\b` word boundary before the first letter can be checked. -/
def scanNames : Nat → Option Char → List Char → List (List Char)
  | 0, _, _ => []
  | fuel + 1, prev, s =>
    match s with
    | [] => []
    | c :: rest =>
      if (match prev with | none => true | some p => !isWordCh p) then
        match matchName (c :: rest) with
        | some n =>
          (c :: rest).take n ::
            scanNames fuel ((c :: rest).take n).getLast? ((c :: rest).drop n)
        | none => scanNames fuel (some c) rest
      else scanNames fuel (some c) rest

/-- `extract_emails` of `core/extractors.py` (on the plain text; see header). -/
def extract_emails (text : String) : List String :=
  if text.data = [] then []
  else pyDedup ((pyFindall matchEmail text.data).map String.mk)

/-- The cleanup `re.sub(r"[^\d+]", "", ph)`: keep digits and `+`. -/
def stripPhone (cs : List Char) : List Char :=
  cs.filter (fun c => c.isDigit || c = '+')

/-- `extract_phones` of `core/extractors.py`: match, strip each candidate,
keep the ones whose stripped length is between 7 and 15, dedupe. -/
def extract_phones (text : String) : List String :=
  if text.data = [] then []
  else
    pyDedup (((pyFindall matchPhone text.data).map stripPhone).filterMap
      (fun p => if 7 ≤ p.length ∧ p.length ≤ 15 then some (String.mk p) else none))

/-- `extract_links` of `core/extractors.py` (runs on the original text:
no BeautifulSoup step here). -/
def extract_links (text : String) : List String :=
  if text.data = [] then []
  else pyDedup ((pyFindall matchLink text.data).map String.mk)

/-- `extract_usernames` of `core/extractors.py`: captures are lowercased
(`u.lower()`) before the dedup. -/
def extract_usernames (text : String) : List String :=
  if text.data = [] then []
  else
    pyDedup ((pyFindall matchUser text.data).map
      (fun cs => String.mk (cs.map Char.toLower)))

/-- `extract_possible_names` of `core/extractors.py`. -/
def extract_possible_names (text : String) : List String :=
  if text.data = [] then []
  else pyDedup ((scanNames (text.data.length + 1) none text.data).map String.mk)

/-! ### Social profile classification -/

/-- Python's `needle in hay` substring test. -/
def listSubstr (needle : List Char) : List Char → Bool
  | [] => decide (needle = [])
  | c :: rest => needle.isPrefixOf (c :: rest) || listSubstr needle rest

/-- Python's `needle in hay` on strings. -/
def pyIn (needle hay : String) : Bool := listSubstr needle.data hay.data

/-- The `if/elif` chain of `extract_social_profiles`, as the bucket a url is
appended to (if any).  The chain tests substrings of the whole url string. -/
def classifySocial (url : String) : Option String :=
  if pyIn "facebook.com" url && !(pyIn "/profile" url) then some "facebook"
  else if pyIn "instagram.com" url then some "instagram"
  else if pyIn "twitter.com" url || pyIn "x.com" url then some "twitter"
  else if pyIn "tiktok.com" url then some "tiktok"
  else if pyIn "linkedin.com" url then some "linkedin"
  else if pyIn "github.com" url then some "github"
  else if pyIn "youtube.com" url || pyIn "youtu.be" url then some "youtube"
  else none

/-- The platform keys of the `profiles` dict, in insertion order. -/
def socialPlatforms : List String :=
  ["facebook", "instagram", "twitter", "tiktok", "linkedin", "github", "youtube"]

/-- `extract_social_profiles` of `core/extractors.py`, a Python dict modelled
as a key-ordered association list.  Empty text returns the empty dict.  The
source initializes all seven buckets, loops over `extract_links text`
appending each url to the bucket `classifySocial` picks, then dedupes each
bucket; appending in link order and deduping is the same as deduping the
filtered link list, which is the form used here. -/
def extract_social_profiles (text : String) : List (String × List String) :=
  if text.data = [] then []
  else
    socialPlatforms.map (fun p =>
      (p, pyDedup ((extract_links text).filter (fun url => classifySocial url = some p))))

/-! ### `extract_all` and the entity dictionaries -/

/-- A value of the heterogeneous Python dicts flowing through `main.py`:
either a list of strings or a string-keyed dict of lists of strings. -/
inductive PyVal : Type where
  | strs (l : List String)
  | dict (m : List (String × List String))

/-- `extract_all` of `core/extractors.py`: the result dict with its six keys
in insertion order. -/
def extract_all (text : String) : List (String × PyVal) :=
  [("emails", PyVal.strs (extract_emails text)),
   ("phones", PyVal.strs (extract_phones text)),
   ("links", PyVal.strs (extract_links text)),
   ("usernames", PyVal.strs (extract_usernames text)),
   ("social_profiles", PyVal.dict (extract_social_profiles text)),
   ("names", PyVal.strs (extract_possible_names text))]

/-! ### Association-list model of Python dicts -/

/-- `d.get(k)` / `d[k]`-lookup on an association list (first hit wins;
the lists modelling dicts have unique keys). -/
def getAssoc {V : Type} : List (String × V) → String → Option V
  | [], _ => none
  | e :: t, k => if e.1 = k then some e.2 else getAssoc t k

/-- `d[k] = v`: replace in place, or append a new key. -/
def updAssoc {V : Type} : List (String × V) → String → V → List (String × V)
  | [], k, v => [(k, v)]
  | e :: t, k, v => if e.1 = k then (k, v) :: t else e :: updAssoc t k v

/-- `del d[k]`. -/
def delAssoc {V : Type} (l : List (String × V)) (k : String) : List (String × V) :=
  l.filter (fun e => e.1 ≠ k)

/-! ### `SimpleCache` of `core/utils.py`

Timestamps are explicit rationals (`time.time()` values).  `_save` is
modelled as succeeding (`disk := data`); the source swallows persistence
failures, and the claims describe the successful write-through behaviour. -/

structure SimpleCache (V : Type) : Type where
  ttl : Int
  data : List (String × (V × ℚ)) := []
  disk : List (String × (V × ℚ)) := []

/-- `SimpleCache.get`: a fresh entry (age at most `ttl`) is returned; an
expired one is deleted, the deletion is persisted, and `None` is returned;
a missing key returns `None`. -/
def cacheGet {V : Type} (c : SimpleCache V) (key : String) (now : ℚ) :
    Option V × SimpleCache V :=
  match getAssoc c.data key with
  | none => (none, c)
  | some (v, ts) =>
    if (c.ttl : ℚ) < now - ts then
      let d := delAssoc c.data key
      (none, { c with data := d, disk := d })
    else (some v, c)

/-- `SimpleCache.set`: store `{"value": v, "_fetched_at": now}` and persist. -/
def cacheSet {V : Type} (c : SimpleCache V) (key : String) (v : V) (now : ℚ) :
    SimpleCache V :=
  let d := updAssoc c.data key (v, now)
  { c with data := d, disk := d }

/-! ### `domain_of` and `DomainRateLimiter` of `core/utils.py` -/

/-- Characters `urlparse` allows in a scheme after its leading letter. -/
def isSchemeCh (c : Char) : Bool :=
  c.isAlpha || c.isDigit || c = '+' || c = '-' || c = '.'

/-- Everything before the end of the authority component. -/
def takeNetloc (l : List Char) : List Char :=
  l.takeWhile (fun c => c ≠ '/' && c ≠ '?' && c ≠ '#')

/-- The remainder after a valid `scheme:`, if the input starts with one. -/
def restAfterScheme : List Char → Option (List Char)
  | [] => none
  | c :: t => if c = ':' then some t else if isSchemeCh c then restAfterScheme t else none

/-- `domain_of` of `core/utils.py`: `urlparse(url).netloc.lower()`, modelled
for the URL shapes the tool meets (`scheme://host/...`, protocol-relative
`//host/...`, or anything else, which has no netloc and yields `""`). -/
def domain_of (url : String) : String :=
  let cs := url.data
  let netloc :=
    if "//".data.isPrefixOf cs then takeNetloc (cs.drop 2)
    else
      match cs with
      | [] => []
      | c :: t =>
        if c.isAlpha then
          match restAfterScheme t with
          | some r => if "//".data.isPrefixOf r then takeNetloc (r.drop 2) else []
          | none => []
        else []
  String.mk (netloc.map Char.toLower)

/-- `DomainRateLimiter`: the base delay and the per-domain map of last
completion times. -/
structure DomainRateLimiter : Type where
  min_delay : ℚ
  last : List (String × ℚ) := []

/-- `DomainRateLimiter.wait`: `now` is what `time.time()` returns at entry and
`jitter` what `random.uniform(0, min_delay*0.4)` returns.  With `time.sleep`
exact, the returned first component is the completion time, which is also the
value written into the per-domain map; a url without a parseable host returns
immediately and changes nothing. -/
def DomainRateLimiter.wait (rl : DomainRateLimiter) (url : String) (now jitter : ℚ) :
    ℚ × DomainRateLimiter :=
  let d := domain_of url
  if d = "" then (now, rl)
  else
    let last := (getAssoc rl.last d).getD 0
    let wait_for := rl.min_delay + jitter
    let to_wait := last + wait_for - now
    let fin := if 0 < to_wait then now + to_wait else now
    (fin, { rl with last := updAssoc rl.last d fin })

/-! ### `make_request` of `core/utils.py`

The network is external: the value `fetch_url_text` would return for this GET
is passed in as `fetch` (`some (status, text)` for any HTTP response,
including 4xx/5xx; `none` for a transport failure, which `fetch_url_text`
collapses to `(None, None)`).  The optional limiter only affects timing and
is omitted; `fetched` records whether `fetch_url_text` was actually called,
so that "retries instead of returning a cached failure" can be stated.
Cached values are the `{"status_code": ..., "text": ...}` records the
function itself stores, which are non-empty dicts, so the
`cached and isinstance(cached, dict)` guard is satisfied by any hit. -/

structure ReqResult : Type where
  status : Option Int
  text : Option String
  cache : SimpleCache (Int × String)
  fetched : Bool

/-- `make_request url` with a cache: rate limiting aside, look the key up when
`use_cache`, fetch on a miss, and store the result only when the status code
is present. -/
def make_request (c : SimpleCache (Int × String)) (use_cache : Bool) (url : String)
    (fetch : Option (Int × String)) (now : ℚ) : ReqResult :=
  let key := "GET:" ++ url
  if use_cache then
    match cacheGet c key now with
    | (some (st, tx), c1) =>
      { status := some st, text := some tx, cache := c1, fetched := false }
    | (none, c1) =>
      match fetch with
      | some (st, tx) =>
        { status := some st, text := some tx,
          cache := cacheSet c1 key (st, tx) now, fetched := true }
      | none => { status := none, text := none, cache := c1, fetched := true }
  else
    match fetch with
    | some (st, tx) => { status := some st, text := some tx, cache := c, fetched := true }
    | none => { status := none, text := none, cache := c, fetched := true }

/-! ### Consolidation and scoring (`main.py`) -/

/-- One provider record inside a block's `sources` (fields may be absent). -/
structure Source : Type where
  engine : Option String := none
  title : Option String := none
  link : Option String := none
  snippet : Option String := none
  raw : Option String := none

/-- One enriched hit as built by `consolidate_results` and decorated by
`score_and_classify_hits`. -/
structure Hit : Type where
  sig : String
  engine : Option String
  link : Option String
  title : Option String
  snippet : Option String
  raw : String
  category : Option String := none
  score : Option Int := none
deriving DecidableEq

/-- One per-query result block. -/
structure Block : Type where
  query : String := ""
  sources : List Source := []
  entities : List (String × PyVal) := []

/-- Python's `x or ""` on an optional string. -/
def orEmpty : Option String → String
  | some s => s
  | none => ""

/-- The hit record `consolidate_results` builds from one source
(`raw` defaults to `""` when absent). -/
def mkHit (s : Source) : Hit :=
  { sig := orEmpty s.link ++ "|" ++ orEmpty s.title ++ "|" ++ orEmpty s.snippet
    engine := s.engine
    link := s.link
    title := s.title
    snippet := s.snippet
    raw := orEmpty s.raw }

/-- Iterating `entities.get(key, [])`: a list yields its elements, a dict
yields its keys (Python iterates dicts by key), a missing key yields `[]`. -/
def pyGetList (entities : List (String × PyVal)) (key : String) : List String :=
  match getAssoc entities key with
  | some (PyVal.strs l) => l
  | some (PyVal.dict m) => m.map Prod.fst
  | none => []

/-- `(entities.get("socials") or {}).items()`: a missing or falsy value gives
no items.  (A non-empty non-dict value would raise in Python; the blocks the
pipeline builds never hold one and it is not modelled.) -/
def pyGetSocials (entities : List (String × PyVal)) : List (String × List String) :=
  match getAssoc entities "socials" with
  | some (PyVal.dict m) => m
  | some (PyVal.strs _) => []
  | none => []

/-- Lexicographic comparison of char lists by code points, as Python compares
strings (an executable form of `String`'s `≤`, proved equivalent below). -/
def listLe : List Char → List Char → Bool
  | [], _ => true
  | _ :: _, [] => false
  | a :: as, b :: bs => if a < b then true else if b < a then false else listLe as bs

/-- Python's `a <= b` on strings. -/
def pyStrLe (a b : String) : Bool := listLe a.data b.data

/-- `sorted(set(l))` for Python strings: drop duplicates and sort
lexicographically by code points, which is exactly `String`'s linear order. -/
def pySortedSet (l : List String) : List String :=
  List.insertionSort (fun a b => pyStrLe a b = true) (pyDedup l)

/-- The elements the `socials` accumulation of `consolidate_results` unions
into platform `p`, in encounter order. -/
def socialsAt (blocks : List Block) (p : String) : List String :=
  blocks.flatMap (fun b =>
    (pyGetSocials b.entities).flatMap (fun e => if e.1 = p then e.2 else []))

/-- The platform keys of the accumulated `all_socials` dict, in first-seen
order (`setdefault` appends a new key at its first appearance). -/
def socialKeys (blocks : List Block) : List String :=
  pyDedup (blocks.flatMap (fun b => (pyGetSocials b.entities).map Prod.fst))

/-- The consolidated report of `consolidate_results`. -/
structure Consolidated : Type where
  emails : List String
  phones : List String
  urls : List String
  socials : List (String × List String)
  hits : List Hit

/-- `consolidate_results` of `main.py`: union the entity categories across
blocks into sets and sort them; the set accumulation is modelled by grouping
per key, which `sorted(set(...))` makes extensionally identical; hits are
concatenated in block order. -/
def consolidate_results (blocks : List Block) : Consolidated :=
  { emails := pySortedSet (blocks.flatMap (fun b => pyGetList b.entities "emails"))
    phones := pySortedSet (blocks.flatMap (fun b => pyGetList b.entities "phones"))
    urls := pySortedSet (blocks.flatMap (fun b => pyGetList b.entities "urls"))
    socials := (socialKeys blocks).map (fun p => (p, pySortedSet (socialsAt blocks p)))
    hits := blocks.flatMap (fun b => b.sources.map mkHit) }

/-- Lowercase a string (`str.lower()`; the strings scored are ASCII). -/
def toLowerStr (s : String) : String := String.mk (s.data.map Char.toLower)

/-- Strip the double quotes a query may be wrapped in. -/
def stripQuotes (q : String) : String := String.mk (q.data.filter (fun c => c ≠ '"'))

/-- Modelled from the spec: `score_hit` is looked up on `core.utils` by
`main.py` but is not defined in `src/core/utils.py`.  Per the spec, the score
is `+3` if the quote-stripped, case-folded query appears in the hit's raw
text, `+4` if it appears in the hit's link, and `-2` if the raw text contains
the word "error"; the text containment tests are case-insensitive. -/
def score_hit (raw : String) (query : String) (url : Option String) : Int :=
  let q := toLowerStr (stripQuotes query)
  let r := toLowerStr raw
  (if pyIn q r then (3 : Int) else 0)
    + (if pyIn q (toLowerStr (orEmpty url)) then (4 : Int) else 0)
    - (if pyIn "error" r then (2 : Int) else 0)

/-- Modelled from the spec: `classify_url` is looked up on `core.utils` by
`main.py` but is not defined in `src/core/utils.py`.  Per the spec it maps a
url to a platform by the same substring rules as the social classification,
defaulting to "website"; only the default shape matters to the claims. -/
def classify_url (url : Option String) : String :=
  match url with
  | none => "website"
  | some u =>
    match classifySocial u with
    | some p => p
    | none => "website"

/-- `score_and_classify_hits` of `main.py`: set each hit's category and score,
then sort by score descending (Python's stable `sorted(..., reverse=True)`,
here a stable insertion sort on `≥`). -/
def score_and_classify_hits (hits : List Hit) (query_main : String) : List Hit :=
  let scored := hits.map (fun h =>
    { h with
      category := some (classify_url h.link)
      score := some (score_hit h.raw query_main h.link) })
  List.insertionSort (fun a b => a.score.getD 0 ≥ b.score.getD 0) scored

/-! ### Helper lemmas -/

theorem mem_pyDedupAux {α : Type} [DecidableEq α] (x : α) :
    ∀ (l seen : List α), x ∈ pyDedupAux seen l ↔ x ∈ l ∧ x ∉ seen := by
  intro l
  induction l with
  | nil => intro seen; simp [pyDedupAux]
  | cons a t ih =>
    intro seen
    by_cases h : a ∈ seen
    · by_cases hx : x = a <;> simp_all [pyDedupAux]
    · by_cases hx : x = a <;> simp_all [pyDedupAux]

theorem mem_pyDedup {α : Type} [DecidableEq α] (x : α) (l : List α) :
    x ∈ pyDedup l ↔ x ∈ l := by
  simp [pyDedup, mem_pyDedupAux]

theorem pyDedupAux_nodup {α : Type} [DecidableEq α] :
    ∀ (l seen : List α), (pyDedupAux seen l).Nodup := by
  intro l
  induction l with
  | nil => intro seen; simp [pyDedupAux]
  | cons a t ih =>
    intro seen
    by_cases h : a ∈ seen
    · simpa [pyDedupAux, h] using ih seen
    · rw [show pyDedupAux seen (a :: t) = a :: pyDedupAux (a :: seen) t from by
        simp [pyDedupAux, h]]
      refine List.nodup_cons.mpr ⟨?_, ih (a :: seen)⟩
      intro hmem
      rw [mem_pyDedupAux] at hmem
      exact hmem.2 (List.mem_cons_self a seen)

theorem pyDedup_nodup {α : Type} [DecidableEq α] (l : List α) : (pyDedup l).Nodup :=
  pyDedupAux_nodup l []

theorem getAssoc_updAssoc_self {V : Type} (l : List (String × V)) (k : String) (v : V) :
    getAssoc (updAssoc l k v) k = some v := by
  induction l with
  | nil => simp [updAssoc, getAssoc]
  | cons e t ih =>
    by_cases h : e.1 = k
    · simp [updAssoc, getAssoc, h]
    · simp [updAssoc, getAssoc, h, ih]

theorem getAssoc_updAssoc_ne {V : Type} (l : List (String × V)) (k k2 : String) (v : V)
    (h : k2 ≠ k) : getAssoc (updAssoc l k v) k2 = getAssoc l k2 := by
  induction l with
  | nil => simp [updAssoc, getAssoc, Ne.symm h]
  | cons e t ih =>
    by_cases he : e.1 = k
    · subst he
      simp [updAssoc, getAssoc, Ne.symm h]
    · simp [updAssoc, getAssoc, he, ih]

theorem getAssoc_delAssoc_self {V : Type} (l : List (String × V)) (k : String) :
    getAssoc (delAssoc l k) k = none := by
  induction l with
  | nil => simp [delAssoc, getAssoc]
  | cons e t ih =>
    by_cases h : e.1 = k
    · simpa [delAssoc, h] using ih
    · simpa [delAssoc, getAssoc, h] using ih

theorem getAssoc_map_keys {β : Type} (f : String → β) :
    ∀ (keys : List String) (p : String), p ∈ keys →
      getAssoc (keys.map (fun k => (k, f k))) p = some (f p) := by
  intro keys
  induction keys with
  | nil => intro p hp; simp at hp
  | cons a t ih =>
    intro p hp
    by_cases h : a = p
    · subst h; simp [getAssoc]
    · rcases List.mem_cons.mp hp with hp | hp
      · exact absurd hp.symm h
      · simp [getAssoc, h, ih p hp]

theorem listLe_iff_not_lex : ∀ (x y : List Char), listLe x y = true ↔ ¬ List.Lex (· < ·) y x
  | [], y => by
    simp only [listLe]
    exact iff_of_true trivial (List.Lex.not_nil_right _ _)
  | a :: as, [] => by
    simp only [listLe]
    constructor
    · intro h
      cases h
    · intro h
      exact absurd List.Lex.nil h
  | a :: as, b :: bs => by
    simp only [listLe]
    by_cases hab : a < b
    · rw [if_pos hab]
      refine iff_of_true rfl ?_
      intro hlex
      cases hlex with
      | cons h => exact lt_irrefl _ hab
      | rel h => exact absurd hab (asymm h)
    · rw [if_neg hab]
      by_cases hba : b < a
      · rw [if_pos hba]
        constructor
        · intro h
          cases h
        · intro h
          exact absurd (List.Lex.rel hba) h
      · rw [if_neg hba]
        have heq : a = b := le_antisymm (le_of_not_lt hba) (le_of_not_lt hab)
        subst heq
        rw [listLe_iff_not_lex as bs]
        exact (not_congr List.Lex.cons_iff).symm

theorem pyStrLe_iff_le (a b : String) : pyStrLe a b = true ↔ a ≤ b := by
  have h1 : (a ≤ b) = ¬ (b < a) := rfl
  rw [h1, String.lt_iff_toList_lt]
  exact listLe_iff_not_lex a.data b.data

instance : IsTotal String (fun a b => pyStrLe a b = true) where
  total a b := by
    rcases le_total a b with h | h
    · exact Or.inl ((pyStrLe_iff_le a b).mpr h)
    · exact Or.inr ((pyStrLe_iff_le b a).mpr h)

instance : IsTrans String (fun a b => pyStrLe a b = true) where
  trans a b c hab hbc :=
    (pyStrLe_iff_le a c).mpr
      (le_trans ((pyStrLe_iff_le a b).mp hab) ((pyStrLe_iff_le b c).mp hbc))

theorem pySortedSet_sorted (l : List String) :
    List.Sorted (fun a b => a ≤ b) (pySortedSet l) :=
  (List.sorted_insertionSort (fun a b => pyStrLe a b = true) (pyDedup l)).imp
    (fun hx => (pyStrLe_iff_le _ _).mp hx)

theorem pySortedSet_nodup (l : List String) : (pySortedSet l).Nodup :=
  ((List.perm_insertionSort _ _).nodup_iff).mpr (pyDedup_nodup l)

theorem mem_pySortedSet (x : String) (l : List String) :
    x ∈ pySortedSet l ↔ x ∈ l := by
  simp [pySortedSet, List.mem_insertionSort, mem_pyDedup]

/-! ### Claim C5: cache round trip, expiry eviction, missing keys -/

/-- C5: for every key `k` and value `v`, `set(k, v)` followed by `get(k)`
while the entry's age is at most `ttl` returns `v`; once the age exceeds
`ttl`, `get(k)` returns absent, removes the entry, and persists the removal
so the key is absent from the persisted state; `get` of a missing key
returns absent. -/
theorem C5_cache_ttl_roundtrip {V : Type} (c : SimpleCache V) (k k2 : String) (v : V)
    (t1 t2 t3 : ℚ) :
    (t2 - t1 ≤ (c.ttl : ℚ) → (cacheGet (cacheSet c k v t1) k t2).1 = some v)
    ∧ ((c.ttl : ℚ) < t3 - t1 →
        (cacheGet (cacheSet c k v t1) k t3).1 = none
        ∧ getAssoc (cacheGet (cacheSet c k v t1) k t3).2.data k = none
        ∧ getAssoc (cacheGet (cacheSet c k v t1) k t3).2.disk k = none)
    ∧ (getAssoc c.data k2 = none → (cacheGet c k2 t2).1 = none) := by
  refine ⟨?_, ?_, ?_⟩
  · intro h
    simp [cacheGet, cacheSet, getAssoc_updAssoc_self, not_lt.mpr h]
  · intro h
    simp [cacheGet, cacheSet, getAssoc_updAssoc_self, h, getAssoc_delAssoc_self]
  · intro h
    simp [cacheGet, h]

/-- Witness for C5 at a concrete cache, key, value and clock values. -/
theorem C5_cache_ttl_roundtrip_witness :
    (cacheGet (cacheSet ({ ttl := 10 } : SimpleCache Nat) "GET:http://a.com" 7 0)
        "GET:http://a.com" 5).1 = some 7
    ∧ (cacheGet (cacheSet ({ ttl := 10 } : SimpleCache Nat) "GET:http://a.com" 7 0)
        "GET:http://a.com" 11).1 = none
    ∧ (cacheGet ({ ttl := 10 } : SimpleCache Nat) "missing" 5).1 = none :=
  ⟨(C5_cache_ttl_roundtrip { ttl := 10 } "GET:http://a.com" "missing" 7 0 5 11).1
      (by norm_num),
   ((C5_cache_ttl_roundtrip { ttl := 10 } "GET:http://a.com" "missing" 7 0 5 11).2.1
      (by norm_num)).1,
   (C5_cache_ttl_roundtrip { ttl := 10 } "GET:http://a.com" "missing" 7 0 5 11).2.2 rfl⟩

/-! ### Claim C6: per-domain spacing of the rate limiter -/

/-- C6: for a domain with a parseable host, two consecutive completions of
`wait` for that domain are at least `min_delay` apart (jitter is only ever
added); the per-domain timestamp is updated on every call whether or not a
sleep occurred; and a call neither touches other domains' entries nor depends
on them, so calls for different domains are not serialized against each
other. -/
theorem C6_rate_limiter_spacing (rl : DomainRateLimiter) (url1 url2 : String)
    (now1 now2 j1 j2 : ℚ)
    (hd : domain_of url1 ≠ "") (hsame : domain_of url2 = domain_of url1)
    (hj : 0 ≤ j2) :
    rl.min_delay
        ≤ ((rl.wait url1 now1 j1).2.wait url2 now2 j2).1 - (rl.wait url1 now1 j1).1
    ∧ getAssoc (rl.wait url1 now1 j1).2.last (domain_of url1)
        = some (rl.wait url1 now1 j1).1
    ∧ getAssoc ((rl.wait url1 now1 j1).2.wait url2 now2 j2).2.last (domain_of url1)
        = some ((rl.wait url1 now1 j1).2.wait url2 now2 j2).1
    ∧ (∀ d2, d2 ≠ domain_of url1 →
        getAssoc (rl.wait url1 now1 j1).2.last d2 = getAssoc rl.last d2)
    ∧ (∀ (s s2 : DomainRateLimiter) (url : String) (now j : ℚ),
        s.min_delay = s2.min_delay →
        getAssoc s.last (domain_of url) = getAssoc s2.last (domain_of url) →
        (s.wait url now j).1 = (s2.wait url now j).1) := by
  have hd2 : domain_of url2 ≠ "" := by rw [hsame]; exact hd
  refine ⟨?_, ?_, ?_, ?_, ?_⟩
  · simp only [DomainRateLimiter.wait, hsame, if_neg hd, if_neg hd2,
      getAssoc_updAssoc_self, Option.getD_some]
    split_ifs <;> linarith
  · simp [DomainRateLimiter.wait, if_neg hd, getAssoc_updAssoc_self]
  · simp only [DomainRateLimiter.wait, hsame, if_neg hd, if_neg hd2,
      getAssoc_updAssoc_self, Option.getD_some]
  · intro d2 hne
    simp only [DomainRateLimiter.wait, if_neg hd]
    exact getAssoc_updAssoc_ne _ _ _ _ hne
  · intro s s2 url now j hmin hlast
    by_cases h0 : domain_of url = ""
    · simp [DomainRateLimiter.wait, h0]
    · simp only [DomainRateLimiter.wait, if_neg h0, hlast, hmin]

/-- Witness for C6 at concrete urls of one domain (in different letter case)
and concrete clock and jitter values. -/
theorem C6_rate_limiter_spacing_witness :
    (({ min_delay := 1, last := [] } : DomainRateLimiter).min_delay
        ≤ ((({ min_delay := 1, last := [] } : DomainRateLimiter).wait
              "http://A.com/x" 0 (1/5)).2.wait "https://a.com/y" 0 (2/5)).1
          - (({ min_delay := 1, last := [] } : DomainRateLimiter).wait
              "http://A.com/x" 0 (1/5)).1)
    ∧ getAssoc (({ min_delay := 1, last := [] } : DomainRateLimiter).wait
          "http://A.com/x" 0 (1/5)).2.last (domain_of "http://A.com/x")
        = some (({ min_delay := 1, last := [] } : DomainRateLimiter).wait
          "http://A.com/x" 0 (1/5)).1 := by
  have h := C6_rate_limiter_spacing { min_delay := 1, last := [] }
    "http://A.com/x" "https://a.com/y" 0 0 (1/5) (2/5)
    (by decide) (by decide) (by norm_num)
  exact ⟨h.1, h.2.1⟩

/-! ### Claim C7: only successful fetches are cached -/

/-- C7: `make_request` stores the fetch result only when the status code is
present: with no cache configured the cache is untouched, a transport failure
leaves the cache exactly as the lookup left it, and when nothing fresh is
cached for the url a failed fetch returns absent, performs the fetch, leaves
the key absent, and a subsequent call for the same url performs the network
fetch again; a successful fetch on a miss is stored under the key with the
current time. -/
theorem C7_make_request_failure_not_cached (c : SimpleCache (Int × String))
    (url : String) (fetch2 : Option (Int × String)) (st : Int) (tx : String)
    (now now2 : ℚ) :
    (make_request c false url none now).cache = c
    ∧ (make_request c true url none now).cache = (cacheGet c ("GET:" ++ url) now).2
    ∧ (getAssoc c.data ("GET:" ++ url) = none →
        (make_request c true url none now).status = none
        ∧ (make_request c true url none now).fetched = true
        ∧ getAssoc (make_request c true url none now).cache.data ("GET:" ++ url) = none
        ∧ getAssoc (make_request c true url none now).cache.disk ("GET:" ++ url)
            = getAssoc c.disk ("GET:" ++ url)
        ∧ (make_request (make_request c true url none now).cache true url fetch2 now2).fetched
            = true)
    ∧ (getAssoc c.data ("GET:" ++ url) = none →
        getAssoc (make_request c true url (some (st, tx)) now).cache.data ("GET:" ++ url)
          = some ((st, tx), now)) := by
  refine ⟨rfl, ?_, ?_, ?_⟩
  · unfold make_request
    simp only [if_pos]
    rcases hget : cacheGet c ("GET:" ++ url) now with ⟨res, c1⟩
    rcases res with _ | ⟨rst, rtx⟩ <;> simp
  · intro h
    have hmiss : cacheGet c ("GET:" ++ url) now = (none, c) := by
      simp [cacheGet, h]
    have hmiss2 : cacheGet c ("GET:" ++ url) now2 = (none, c) := by
      simp [cacheGet, h]
    rcases fetch2 with _ | ⟨f1, f2⟩ <;>
      refine ⟨?_, ?_, ?_, ?_, ?_⟩ <;>
        simp [make_request, hmiss, hmiss2, h]
  · intro h
    have hmiss : cacheGet c ("GET:" ++ url) now = (none, c) := by
      simp [cacheGet, h]
    simp [make_request, hmiss, cacheSet, getAssoc_updAssoc_self]

/-- Witness for C7 at a concrete empty cache and url. -/
theorem C7_make_request_failure_not_cached_witness :
    (make_request ({ ttl := 86400 } : SimpleCache (Int × String)) true "http://x.com"
        none 0).status = none
    ∧ getAssoc (make_request ({ ttl := 86400 } : SimpleCache (Int × String)) true
        "http://x.com" none 0).cache.data ("GET:" ++ "http://x.com") = none
    ∧ (make_request (make_request ({ ttl := 86400 } : SimpleCache (Int × String)) true
          "http://x.com" none 0).cache true "http://x.com" (some (200, "ok")) 5).fetched
        = true := by
  have h := (C7_make_request_failure_not_cached { ttl := 86400 } "http://x.com"
    (some (200, "ok")) 200 "ok" 0 5).2.2.1 rfl
  exact ⟨h.1, h.2.2.1, h.2.2.2.2⟩

/-! ### Claim C1: the phone acceptance boundary -/

/-- C1 counterexample: the pattern yields the single candidate
`"+123 1234 1234 1234"`, which has exactly 15 digits, yet `extract_phones`
rejects it — its stripped form keeps the leading `+`, so the length the
filter tests is 16.  This refutes "a candidate with exactly 15 digits is
kept". -/
theorem C1_counterexample_fifteen_digit_candidate_rejected :
    pyFindall matchPhone ("+123 1234 1234 1234" : String).data
      = [("+123 1234 1234 1234" : String).data]
    ∧ (("+123 1234 1234 1234" : String).data.filter (fun c => c.isDigit)).length = 15
    ∧ (stripPhone ("+123 1234 1234 1234" : String).data).length = 16
    ∧ extract_phones "+123 1234 1234 1234" = [] := by
  refine ⟨by decide, by decide, by decide, by decide⟩

/-- C1 amended: every candidate kept by `extract_phones` has a stripped
length — digits plus a retained leading `+` — between 7 and 15 inclusive;
a 6-character stripped candidate is rejected, a 7-digit one is kept, a
15-digit candidate without `+` is kept, and a 15-digit candidate with a
leading `+` (stripped length 16) is rejected. -/
theorem C1_phone_stripped_length_bounds :
    (∀ (text p : String), p ∈ extract_phones text → 7 ≤ p.length ∧ p.length ≤ 15)
    ∧ extract_phones "123 456" = []
    ∧ extract_phones "1234567" = ["1234567"]
    ∧ extract_phones "123 1234 1234 1234" = ["123123412341234"]
    ∧ extract_phones "+1 415-555-0100" = ["+14155550100"]
    ∧ extract_phones "+123 1234 1234 1234" = [] := by
  refine ⟨?_, by decide, by decide, by decide, by decide, by decide⟩
  intro text p hp
  unfold extract_phones at hp
  by_cases ht : text.data = []
  · rw [if_pos ht] at hp
    simp at hp
  · rw [if_neg ht] at hp
    rw [mem_pyDedup] at hp
    rcases List.mem_filterMap.mp hp with ⟨q, _, hq⟩
    by_cases hlen : 7 ≤ q.length ∧ q.length ≤ 15
    · rw [if_pos hlen] at hq
      cases hq
      simpa [String.length] using hlen
    · rw [if_neg hlen] at hq
      cases hq

/-- Witness for the bounded part of C1 at a concrete text and candidate. -/
theorem C1_phone_stripped_length_bounds_witness :
    7 ≤ ("+14155550100" : String).length ∧ ("+14155550100" : String).length ≤ 15 :=
  C1_phone_stripped_length_bounds.1 "+1 415-555-0100" "+14155550100" (by decide)

/-! ### Claim C4: email deduplication is exact, not case-insensitive -/

/-- C4 counterexample: a text holding the same address twice differing only
in letter case produces two entries, not one — the dedup compares exact
strings. -/
theorem C4_counterexample_case_variants_kept :
    extract_emails "A@B.com a@b.com" = ["A@B.com", "a@b.com"] := by decide

/-- C4 amended: `extract_emails` dedupes exact duplicate occurrences to one
entry, preserving first-seen order and casing (its output never repeats a
string); occurrences of the same address differing in letter case remain
distinct entries, each with its own casing. -/
theorem C4_email_dedup_exact :
    (∀ (text : String), (extract_emails text).Nodup)
    ∧ extract_emails "a@b.com and a@b.com" = ["a@b.com"]
    ∧ extract_emails "A@B.com a@b.com" = ["A@B.com", "a@b.com"] := by
  refine ⟨?_, by decide, by decide⟩
  intro text
  unfold extract_emails
  by_cases ht : text.data = []
  · rw [if_pos ht]; simp
  · rw [if_neg ht]; exact pyDedup_nodup _

/-! ### Claim C3: social classification matches on the whole url -/

/-- C3 counterexample: `https://example.org/facebook.com` is assigned to the
facebook bucket although no platform substring occurs in its host
`example.org` — the chain tests the whole url string, not the host. -/
theorem C3_counterexample_path_match_classified :
    getAssoc (extract_social_profiles "https://example.org/facebook.com") "facebook"
      = some ["https://example.org/facebook.com"]
    ∧ domain_of "https://example.org/facebook.com" = "example.org"
    ∧ (["facebook.com", "instagram.com", "twitter.com", "x.com", "tiktok.com",
        "linkedin.com", "github.com", "youtube.com", "youtu.be"].all
          (fun n => !pyIn n "example.org")) = true := by
  refine ⟨by decide, by decide, by decide⟩

/-- C3 amended: each extracted link lands in at most one bucket, the one of
the first platform in the listed order whose identifying substring occurs
anywhere in the link's url string (not just its host), a facebook url
containing `/profile` being classified to no bucket; a facebook `/profile`
link stays in the link list with an empty facebook bucket, and
`https://youtu.be/abc` classifies as youtube. -/
theorem C3_social_buckets_first_match_on_url :
    (∀ (text p : String), p ∈ socialPlatforms →
      getAssoc (extract_social_profiles text) p
        = if text.data = [] then none
          else some (pyDedup ((extract_links text).filter
              (fun url => classifySocial url = some p))))
    ∧ extract_links "https://facebook.com/profile/123" = ["https://facebook.com/profile/123"]
    ∧ getAssoc (extract_social_profiles "https://facebook.com/profile/123") "facebook"
        = some []
    ∧ getAssoc (extract_social_profiles "https://youtu.be/abc") "youtube"
        = some ["https://youtu.be/abc"] := by
  refine ⟨?_, by decide, by decide, by decide⟩
  intro text p hp
  unfold extract_social_profiles
  by_cases ht : text.data = []
  · rw [if_pos ht, if_pos ht]; rfl
  · rw [if_neg ht, if_neg ht]
    exact getAssoc_map_keys _ socialPlatforms p hp

/-- Witness for the classification part of C3 at a concrete text and
platform. -/
theorem C3_social_buckets_first_match_on_url_witness :
    getAssoc (extract_social_profiles "https://youtu.be/abc") "youtube"
      = if ("https://youtu.be/abc" : String).data = [] then none
        else some (pyDedup ((extract_links "https://youtu.be/abc").filter
            (fun url => classifySocial url = some "youtube"))) :=
  C3_social_buckets_first_match_on_url.1 "https://youtu.be/abc" "youtube" (by decide)

/-! ### Claim C2: the hit score is the three-signal sum -/

/-- C2: every hit scored by the aggregation stage carries the sum of `+3` for
the case-folded, quote-stripped query occurring in its raw text, `+4` for it
occurring in its link, and `-2` for "error" occurring in its raw text; on
`raw = "contact example@x.com error"`, `link = "http://x.com"`,
`query = "x.com"` the score is 5 (the query occurs in the raw text too). -/
theorem C2_hit_score_is_signal_sum :
    (∀ (hits : List Hit) (q : String) (h : Hit),
      h ∈ score_and_classify_hits hits q →
      h.score = some
        ((if pyIn (toLowerStr (stripQuotes q)) (toLowerStr h.raw) then (3 : Int) else 0)
          + (if pyIn (toLowerStr (stripQuotes q)) (toLowerStr (orEmpty h.link)) then (4 : Int)
             else 0)
          - (if pyIn "error" (toLowerStr h.raw) then (2 : Int) else 0)))
    ∧ (score_and_classify_hits
        [{ sig := "", engine := none, link := some "http://x.com", title := none,
           snippet := none, raw := "contact example@x.com error" }] "x.com").map
        (fun h => h.score) = [some 5]
    ∧ score_hit "contact example@x.com error" "x.com" (some "http://x.com") = 5 := by
  refine ⟨?_, by decide, by decide⟩
  intro hits q h hmem
  unfold score_and_classify_hits at hmem
  rw [List.mem_insertionSort] at hmem
  rcases List.mem_map.mp hmem with ⟨h0, _, rfl⟩
  simp [score_hit]

/-- Witness for C2 at the concrete example hit. -/
theorem C2_hit_score_is_signal_sum_witness :
    ({ sig := "", engine := none, link := some "http://x.com", title := none,
       snippet := none, raw := "contact example@x.com error",
       category := some "twitter", score := some 5 } : Hit).score
      = some
        ((if pyIn (toLowerStr (stripQuotes "x.com"))
              (toLowerStr ("contact example@x.com error" : String)) then (3 : Int) else 0)
          + (if pyIn (toLowerStr (stripQuotes "x.com"))
              (toLowerStr (orEmpty (some "http://x.com"))) then (4 : Int) else 0)
          - (if pyIn "error" (toLowerStr ("contact example@x.com error" : String)) then (2 : Int)
             else 0)) :=
  C2_hit_score_is_signal_sum.1
    [{ sig := "", engine := none, link := some "http://x.com", title := none,
       snippet := none, raw := "contact example@x.com error" }] "x.com" _ (by decide)

/-! ### Claim C8: consolidated entity lists are sorted deduplicated unions -/

theorem getAssoc_map_keys_inv {β : Type} (f : String → β) :
    ∀ (keys : List String) (p : String) (l : β),
      getAssoc (keys.map (fun k => (k, f k))) p = some l → l = f p := by
  intro keys
  induction keys with
  | nil => intro p l h; simp [getAssoc] at h
  | cons a t ih =>
    intro p l h
    by_cases ha : a = p
    · subst ha
      simp [getAssoc] at h
      exact h.symm
    · rw [List.map_cons] at h
      rw [show getAssoc ((a, f a) :: t.map (fun k => (k, f k))) p
          = getAssoc (t.map (fun k => (k, f k))) p from by simp [getAssoc, ha]] at h
      exact ih p l h

theorem mem_if_list {α : Type} (x : α) (c : Prop) [Decidable c] (l : List α) :
    x ∈ (if c then l else []) ↔ c ∧ x ∈ l := by
  by_cases h : c <;> simp [h]

/-- C8: each consolidated entity list (emails, phones, urls, and every
platform's social list) is exactly the union of that category across all
blocks, holds no duplicates, and is sorted lexicographically — not in
per-block first-seen order. -/
theorem C8_consolidated_lists_sorted_dedup_union (blocks : List Block) :
    (List.Sorted (fun a b => a ≤ b) (consolidate_results blocks).emails
      ∧ (consolidate_results blocks).emails.Nodup
      ∧ ∀ x, x ∈ (consolidate_results blocks).emails
          ↔ ∃ b ∈ blocks, x ∈ pyGetList b.entities "emails")
    ∧ (List.Sorted (fun a b => a ≤ b) (consolidate_results blocks).phones
      ∧ (consolidate_results blocks).phones.Nodup
      ∧ ∀ x, x ∈ (consolidate_results blocks).phones
          ↔ ∃ b ∈ blocks, x ∈ pyGetList b.entities "phones")
    ∧ (List.Sorted (fun a b => a ≤ b) (consolidate_results blocks).urls
      ∧ (consolidate_results blocks).urls.Nodup
      ∧ ∀ x, x ∈ (consolidate_results blocks).urls
          ↔ ∃ b ∈ blocks, x ∈ pyGetList b.entities "urls")
    ∧ (∀ (p : String) (l : List String),
        getAssoc (consolidate_results blocks).socials p = some l →
        List.Sorted (fun a b => a ≤ b) l ∧ l.Nodup
          ∧ ∀ x, x ∈ l
              ↔ ∃ b ∈ blocks, ∃ e ∈ pyGetSocials b.entities, e.1 = p ∧ x ∈ e.2) := by
  refine ⟨⟨pySortedSet_sorted _, pySortedSet_nodup _, ?_⟩,
    ⟨pySortedSet_sorted _, pySortedSet_nodup _, ?_⟩,
    ⟨pySortedSet_sorted _, pySortedSet_nodup _, ?_⟩, ?_⟩
  · intro x
    simp [consolidate_results, mem_pySortedSet, List.mem_flatMap]
  · intro x
    simp [consolidate_results, mem_pySortedSet, List.mem_flatMap]
  · intro x
    simp [consolidate_results, mem_pySortedSet, List.mem_flatMap]
  · intro p l h
    have hl : l = pySortedSet (socialsAt blocks p) :=
      getAssoc_map_keys_inv _ (socialKeys blocks) p l h
    subst hl
    refine ⟨pySortedSet_sorted _, pySortedSet_nodup _, ?_⟩
    intro x
    rw [mem_pySortedSet]
    simp only [socialsAt, List.mem_flatMap, mem_if_list]

/-- A concrete block for the C8 witness. -/
def sampleSocialBlock : Block :=
  { query := "q", sources := []
    entities := [("socials", PyVal.dict [("github", ["u2", "u1", "u1"])]),
                 ("emails", PyVal.strs ["b", "a"])] }

/-- Witness for the socials part of C8 at a concrete block list. -/
theorem C8_consolidated_lists_sorted_dedup_union_witness :
    List.Sorted (fun a b : String => a ≤ b) ["u1", "u2"]
    ∧ (["u1", "u2"] : List String).Nodup :=
  ⟨((C8_consolidated_lists_sorted_dedup_union [sampleSocialBlock]).2.2.2 "github"
      ["u1", "u2"] (by decide)).1,
   ((C8_consolidated_lists_sorted_dedup_union [sampleSocialBlock]).2.2.2 "github"
      ["u1", "u2"] (by decide)).2.1⟩

/-! ### Claim C9: the key mismatch between `extract_all` and the consolidator -/

/-- C9: `consolidate_results` reads the entity keys "urls" and "socials",
while `extract_all` emits "links" and "social_profiles"; for blocks whose
entities come from `extract_all`, the consolidated urls and socials are
therefore always empty — only emails and phones are merged. -/
theorem C9_extract_all_links_never_consolidated (blocks : List Block)
    (h : ∀ b ∈ blocks, ∃ t, b.entities = extract_all t) :
    (consolidate_results blocks).urls = []
    ∧ (consolidate_results blocks).socials = []
    ∧ (∀ t, getAssoc (extract_all t) "urls" = none)
    ∧ (∀ t, getAssoc (extract_all t) "socials" = none)
    ∧ (∀ t, getAssoc (extract_all t) "links" = some (PyVal.strs (extract_links t)))
    ∧ (∀ t, getAssoc (extract_all t) "social_profiles"
        = some (PyVal.dict (extract_social_profiles t))) := by
  have hurls : ∀ (bs : List Block), (∀ b ∈ bs, ∃ t, b.entities = extract_all t) →
      bs.flatMap (fun b => pyGetList b.entities "urls") = [] := by
    intro bs
    induction bs with
    | nil => intro _; rfl
    | cons b bt ih =>
      intro hb
      obtain ⟨t, ht⟩ := hb b (List.mem_cons_self b bt)
      have h1 : pyGetList b.entities "urls" = [] := by rw [ht]; rfl
      simp [h1, ih (fun x hx => hb x (List.mem_cons_of_mem b hx))]
  have hkeys : ∀ (bs : List Block), (∀ b ∈ bs, ∃ t, b.entities = extract_all t) →
      bs.flatMap (fun b => (pyGetSocials b.entities).map Prod.fst) = [] := by
    intro bs
    induction bs with
    | nil => intro _; rfl
    | cons b bt ih =>
      intro hb
      obtain ⟨t, ht⟩ := hb b (List.mem_cons_self b bt)
      have h1 : pyGetSocials b.entities = [] := by rw [ht]; rfl
      simp [h1, ih (fun x hx => hb x (List.mem_cons_of_mem b hx))]
  refine ⟨?_, ?_, fun t => rfl, fun t => rfl, fun t => rfl, fun t => rfl⟩
  · show pySortedSet (blocks.flatMap (fun b => pyGetList b.entities "urls")) = []
    rw [hurls blocks h]
    rfl
  · show (socialKeys blocks).map
        (fun p => (p, pySortedSet (socialsAt blocks p))) = []
    have : socialKeys blocks = [] := by
      unfold socialKeys
      rw [hkeys blocks h]
      rfl
    rw [this]
    rfl

/-- A concrete block holding `extract_all` output for the C9 witness. -/
def sampleExtractAllBlock : Block :=
  { query := "q", sources := []
    entities := extract_all "see https://facebook.com/x and a@b.com" }

/-- Witness for C9 at a concrete block built from `extract_all`. -/
theorem C9_extract_all_links_never_consolidated_witness :
    (consolidate_results [sampleExtractAllBlock]).urls = []
    ∧ (consolidate_results [sampleExtractAllBlock]).socials = [] := by
  have h := C9_extract_all_links_never_consolidated [sampleExtractAllBlock]
    (fun b hb => ⟨"see https://facebook.com/x and a@b.com",
      by rw [List.mem_singleton.mp hb]; rfl⟩)
  exact ⟨h.1, h.2.1⟩

/-! ### Claim C10: the username pattern fires on the `@` of email addresses -/

theorem runLen_append_le (cls : Char → Bool) (c : Char) (hc : cls c = false) :
    ∀ (xs ys : List Char), runLen cls (xs ++ c :: ys) ≤ xs.length := by
  intro xs ys
  induction xs with
  | nil => simp [runLen, hc]
  | cons x xt ih =>
    have hrw : runLen cls (x :: (xt ++ c :: ys))
        = if cls x then runLen cls (xt ++ c :: ys) + 1 else 0 := rfl
    rw [List.cons_append, hrw, List.length_cons]
    by_cases hx : cls x
    · rw [if_pos hx]
      omega
    · rw [if_neg hx]
      omega

theorem matchesCI_len_le_of_at :
    ∀ (pat : List Char), (∀ p ∈ pat, p ≠ '@') →
      ∀ (xs ys : List Char), matchesCI pat (xs ++ '@' :: ys) = true →
        pat.length ≤ xs.length := by
  intro pat
  induction pat with
  | nil => intro _ xs ys _; simp
  | cons p pt ih =>
    intro hpat xs ys h
    cases xs with
    | nil =>
      rw [List.nil_append] at h
      simp only [matchesCI, Bool.and_eq_true, decide_eq_true_eq] at h
      have hp : p = '@' := by
        have h1 := h.1
        rw [show ('@' : Char).toLower = '@' from by decide] at h1
        exact h1.symm
      exact absurd hp (hpat p (List.mem_cons_self _ _))
    | cons x xt =>
      rw [List.cons_append] at h
      simp only [matchesCI, Bool.and_eq_true] at h
      have := ih (fun q hq => hpat q (List.mem_cons_of_mem p hq)) xt ys h.2
      simp only [List.length_cons]
      omega

theorem matchUser_pos (s t : List Char) (k : Nat) (h : matchUser s = some (t, k)) :
    0 < k := by
  cases s with
  | nil => simp [matchUser] at h
  | cons c rest =>
    simp only [matchUser, matchUserU] at h
    repeat' split at h
    all_goals cases h <;> omega

theorem matchUser_head (post : List Char) (hr : 3 ≤ runLen isUserCh post) :
    matchUser ('@' :: post)
      = some (post.take (min 32 (runLen isUserCh post)),
          1 + min 32 (runLen isUserCh post)) := by
  simp [matchUser, hr]

theorem matchUserU_append_le (pre post t : List Char) (k : Nat)
    (h : matchUserU (pre ++ '@' :: post) = some (t, k)) : k ≤ pre.length := by
  simp only [matchUserU] at h
  by_cases h2 : matchesCI "u/".data (pre ++ '@' :: post) = true
  · rw [if_pos h2] at h
    have hlen2 : 2 ≤ pre.length := by
      have := matchesCI_len_le_of_at "u/".data (by decide) pre post h2
      simpa using this
    have hdrop : (pre ++ '@' :: post).drop 2 = pre.drop 2 ++ '@' :: post := by
      rw [List.drop_append_eq_append_drop, Nat.sub_eq_zero_of_le hlen2, List.drop_zero]
    rw [hdrop] at h
    have hrun := runLen_append_le isUserCh '@' (by decide) (pre.drop 2) post
    rw [List.length_drop] at hrun
    by_cases hr : 3 ≤ runLen isUserCh (pre.drop 2 ++ '@' :: post)
    · rw [if_pos hr] at h
      cases h
      have hmin := Nat.min_le_right 32 (runLen isUserCh (pre.drop 2 ++ '@' :: post))
      omega
    · rw [if_neg hr] at h
      cases h
  · rw [if_neg h2] at h
    cases h

theorem matchUser_append_le (pre post t : List Char) (k : Nat) (hne : pre ≠ [])
    (h : matchUser (pre ++ '@' :: post) = some (t, k)) : k ≤ pre.length := by
  cases pre with
  | nil => exact absurd rfl hne
  | cons c pre' =>
    rw [List.cons_append] at h
    by_cases hc : c = '@'
    · subst hc
      simp only [matchUser, if_pos] at h
      have hrun := runLen_append_le isUserCh '@' (by decide) pre' post
      by_cases hr : 3 ≤ runLen isUserCh (pre' ++ '@' :: post)
      · rw [if_pos hr] at h
        cases h
        have hmin := Nat.min_le_right 32 (runLen isUserCh (pre' ++ '@' :: post))
        simp only [List.length_cons]
        omega
      · rw [if_neg hr] at h
        cases h
    · simp only [matchUser, if_neg hc] at h
      have hcons : (c :: (pre' ++ '@' :: post)) = (c :: pre') ++ '@' :: post := by
        rw [List.cons_append]
      by_cases h5 : matchesCI "user/".data (c :: (pre' ++ '@' :: post)) = true
      · rw [if_pos h5] at h
        have hlen5 : 5 ≤ (c :: pre').length := by
          have := matchesCI_len_le_of_at "user/".data (by decide) (c :: pre') post
            (by rw [← hcons]; exact h5)
          simpa using this
        have hdrop : (c :: (pre' ++ '@' :: post)).drop 5 = (c :: pre').drop 5 ++ '@' :: post := by
          rw [hcons, List.drop_append_eq_append_drop, Nat.sub_eq_zero_of_le hlen5,
            List.drop_zero]
        rw [hdrop] at h
        have hrun := runLen_append_le isUserCh '@' (by decide) ((c :: pre').drop 5) post
        rw [List.length_drop] at hrun
        by_cases hr : 3 ≤ runLen isUserCh ((c :: pre').drop 5 ++ '@' :: post)
        · rw [if_pos hr] at h
          cases h
          have hmin := Nat.min_le_right 32
            (runLen isUserCh ((c :: pre').drop 5 ++ '@' :: post))
          simp only [List.length_cons] at hlen5 hrun ⊢
          omega
        · rw [if_neg hr] at h
          have := matchUserU_append_le (c :: pre') post t k (by rw [← hcons]; exact h)
          exact this
      · rw [if_neg h5] at h
        exact matchUserU_append_le (c :: pre') post t k (by rw [← hcons]; exact h)

theorem pyScan_user_at :
    ∀ (fuel : Nat) (pre post : List Char),
      (pre ++ '@' :: post).length + 1 ≤ fuel →
      3 ≤ runLen isUserCh post →
      post.take (min 32 (runLen isUserCh post))
        ∈ pyScan matchUser fuel (pre ++ '@' :: post) := by
  intro fuel
  induction fuel with
  | zero => intro pre post hf _; simp at hf
  | succ f ih =>
    intro pre post hf hr
    cases pre with
    | nil =>
      rw [List.nil_append]
      have heq : pyScan matchUser (f + 1) ('@' :: post)
          = post.take (min 32 (runLen isUserCh post))
            :: pyScan matchUser f
              (('@' :: post).drop (1 + min 32 (runLen isUserCh post))) := by
        simp [pyScan, matchUser_head post hr]
      rw [heq]
      exact List.mem_cons_self _ _
    | cons c pre' =>
      cases hm : matchUser ((c :: pre') ++ '@' :: post) with
      | none =>
        have heq : pyScan matchUser (f + 1) ((c :: pre') ++ '@' :: post)
            = pyScan matchUser f (pre' ++ '@' :: post) := by
          rw [List.cons_append] at hm ⊢
          simp [pyScan, hm]
        rw [heq]
        refine ih pre' post ?_ hr
        simp only [List.length_append, List.length_cons] at hf ⊢
        omega
      | some tk =>
        rcases tk with ⟨t, k⟩
        have hk1 : 0 < k := matchUser_pos _ _ _ hm
        have hk2 : k ≤ (c :: pre').length :=
          matchUser_append_le (c :: pre') post t k (by simp) hm
        have hdrop : ((c :: pre') ++ '@' :: post).drop k = (c :: pre').drop k ++ '@' :: post := by
          rw [List.drop_append_eq_append_drop, Nat.sub_eq_zero_of_le hk2, List.drop_zero]
        have heq : pyScan matchUser (f + 1) ((c :: pre') ++ '@' :: post)
            = t :: pyScan matchUser f (((c :: pre') ++ '@' :: post).drop k) := by
          rw [List.cons_append] at hm ⊢
          simp [pyScan, hm]
        rw [heq, hdrop]
        refine List.mem_cons_of_mem _ ?_
        refine ih ((c :: pre').drop k) post ?_ hr
        simp only [List.length_append, List.length_cons, List.length_drop] at hf hk2 ⊢
        omega

/-- C10: for every input text containing an email address `local@domain.tld`,
`extract_usernames` also returns the lowercased leading portion of the
email's domain — the maximal run of up to 32 letters, digits, `.`, `_`, `-`
after the `@` (at least 3 characters for any email, since `domain.tld` is at
least 4) — because the username pattern's `@` alternative fires on the
email's `@`.  Stated for any text position carrying an `@` followed by a
handle run of length at least 3, which every email occurrence provides. -/
theorem C10_username_from_email_domain :
    (∀ (pre post : List Char), 3 ≤ runLen isUserCh post →
      String.mk ((post.take (min 32 (runLen isUserCh post))).map Char.toLower)
        ∈ extract_usernames (String.mk (pre ++ '@' :: post)))
    ∧ extract_usernames "reach me: Local.Part@Domain.TLD today" = ["domain.tld"] := by
  refine ⟨?_, by decide⟩
  intro pre post hr
  have hne : (String.mk (pre ++ '@' :: post)).data ≠ [] := by
    cases pre <;> simp
  unfold extract_usernames
  rw [if_neg hne]
  rw [mem_pyDedup]
  refine List.mem_map.mpr ⟨post.take (min 32 (runLen isUserCh post)), ?_, rfl⟩
  show _ ∈ pyScan matchUser ((pre ++ '@' :: post).length + 1) (pre ++ '@' :: post)
  exact pyScan_user_at _ pre post le_rfl hr

/-- Witness for C10 at a concrete email text. -/
theorem C10_username_from_email_domain_witness :
    String.mk ((("domain.tld" : String).data.take
        (min 32 (runLen isUserCh ("domain.tld" : String).data))).map Char.toLower)
      ∈ extract_usernames
        (String.mk (("local" : String).data ++ '@' :: ("domain.tld" : String).data)) :=
  C10_username_from_email_domain.1 ("local" : String).data ("domain.tld" : String).data
    (by decide)

end Osint
